import Mathlib

/-!
Shallow embedding of the bitrate-convert pipeline scripts
(src/s3-transcode-upload.mjs and the unnamed variant src/unnamed/part_000).

Remote I/O (Google Drive / S3 calls, ffmpeg, the filesystem) is modelled by
explicit oracles: a per-file verification outcome for the staleness refresh,
a per-id mutation outcome for the batch delete and trash operations, and a
record of boolean environment facts for the per-item pipeline. All
definitions are direct translations of the JavaScript source; the JS
remainder operator and JS String.slice with a negative bound are embedded
with their JS semantics where it matters.
-/

/-- A RemoteFileRecord as built by scanGoogleDriveForDuplicates: the object
pushed into fileMap has fields id, name and parentId, where parentId is
file.parents ? file.parents[0] : folderId.  The parentId is an Option
because in JS an empty parents array yields undefined at index 0. -/
structure Record where
  id : String
  name : String
  parentId : Option String
deriving DecidableEq, Repr

/-- One file as returned by the Drive listing: id, name, and the optional
parents array. -/
structure DriveFile where
  id : String
  name : String
  parents : Option (List String)
deriving DecidableEq, Repr

/-- Translation of the parentId computation in scanGoogleDriveForDuplicates:
file.parents ? file.parents[0] : folderId. -/
def mkRecord (folderId : String) (f : DriveFile) : Record :=
  { id := f.id, name := f.name,
    parentId := match f.parents with
      | none => some folderId
      | some l => l.head? }

/-- The duplicate map is a JS object keyed by file name; JS objects preserve
string-key insertion order, so it is embedded as an association list. -/
abbrev DupMap := List (String × List Record)

/-- Lookup in the association-list embedding of the JS object fileMap;
a missing key reads as the empty list. -/
def entryList : DupMap → String → List Record
  | [], _ => []
  | (k, l) :: rest, n => if k = n then l else entryList rest n

/-- Update for the JS object fileMap: fileMap[name].push(rec) when the key
exists, fileMap[name] = [rec] otherwise (new keys appended in insertion
order). -/
def addToMap : DupMap → String → Record → DupMap
  | [], n, r => [(n, [r])]
  | (k, l) :: rest, n, r =>
      if k = n then (k, l ++ [r]) :: rest else (k, l) :: addToMap rest n r

/-- One iteration of the file loop in scanGoogleDriveForDuplicates: push the
record onto fileMap[name], and push the name onto duplicates exactly when
the list length reaches 2. -/
def scanStep (folderId : String) (st : DupMap × List String) (f : DriveFile) :
    DupMap × List String :=
  let r := mkRecord folderId f
  let cur := entryList st.1 f.name
  (addToMap st.1 f.name r,
   if cur.length + 1 = 2 then st.2 ++ [f.name] else st.2)

/-- scanGoogleDriveForDuplicates from src/s3-transcode-upload.mjs lines
31-89, over an already-enumerated file sequence: builds fileMap and the
duplicates list, then returns the whole fileMap when duplicates is
nonempty and null otherwise.  The error path (catch returning null) is
outside the pure model. -/
def scanGoogleDriveForDuplicates (files : List DriveFile) (folderId : String) :
    Option DupMap :=
  if 0 < (files.foldl (scanStep folderId) ([], [])).2.length
  then some (files.foldl (scanStep folderId) ([], [])).1
  else none

/-- The fileIdsToTrash collection loop of trashDuplicatesExceptFirst (lines
141-153): for each name with more than one instance, push the ids of the
instances at index 1 and beyond. -/
def fileIdsToTrash (duplicateMap : DupMap) : List String :=
  duplicateMap.flatMap fun g =>
    if 1 < g.2.length then (g.2.drop 1).map (fun r => r.id) else []

/-- The fileIdsToDelete collection loop of deleteAllDuplicatesExceptFirst
(lines 297-309); textually the same loop as the trash collector. -/
def fileIdsToDelete (duplicateMap : DupMap) : List String :=
  duplicateMap.flatMap fun g =>
    if 1 < g.2.length then (g.2.drop 1).map (fun r => r.id) else []

/-- The records renamed by renameDuplicates (lines 460-488): every instance
at index 1 and beyond of every group with more than one instance. -/
def renameDuplicatesTargets (duplicateMap : DupMap) : List Record :=
  duplicateMap.flatMap fun g =>
    if 1 < g.2.length then g.2.drop 1 else []

/-- All record ids stored anywhere in a duplicate map. -/
def allIds (duplicateMap : DupMap) : List String :=
  duplicateMap.flatMap fun g => g.2.map (fun r => r.id)

/-- Outcome of one remote mutation (the classification made by the catch
handlers of batchTrashFiles and batchDeleteFiles: success, message contains
File not found, message contains permission, anything else). -/
inductive MutOutcome where
  | success
  | notFound
  | permissionDenied
  | otherError
deriving DecidableEq, Repr

/-- The result tallies.  batchTrashFiles initializes all four counters;
batchDeleteFiles initializes only the first three and never touches
otherErrors, which therefore stays 0 in the delete embedding. -/
structure BatchResults where
  success : Nat
  notFound : Nat
  permissionDenied : Nat
  otherErrors : Nat
deriving DecidableEq, Repr

def zeroResults : BatchResults := ⟨0, 0, 0, 0⟩

/-- The switch statement of batchTrashFiles: every classified outcome
increments its counter, the default branch increments otherErrors. -/
def tallyTrashItem (res : BatchResults) : MutOutcome → BatchResults
  | .success => { res with success := res.success + 1 }
  | .notFound => { res with notFound := res.notFound + 1 }
  | .permissionDenied => { res with permissionDenied := res.permissionDenied + 1 }
  | .otherError => { res with otherErrors := res.otherErrors + 1 }

/-- The switch statement of batchDeleteFiles: its results object has no
otherErrors field and the default branch only logs, so an otherError
outcome increments nothing. -/
def tallyDeleteItem (res : BatchResults) : MutOutcome → BatchResults
  | .success => { res with success := res.success + 1 }
  | .notFound => { res with notFound := res.notFound + 1 }
  | .permissionDenied => { res with permissionDenied := res.permissionDenied + 1 }
  | .otherError => res

/-- The batch loop of batchTrashFiles (lines 751-806): slice off batches of
10 ids, classify each id by the outcome oracle, and tally. -/
def trashBatchLoop (outcome : String → MutOutcome) (fileIds : List String)
    (acc : BatchResults) : BatchResults :=
  match fileIds with
  | [] => acc
  | x :: rest =>
      trashBatchLoop outcome ((x :: rest).drop 10)
        (((x :: rest).take 10).foldl (fun a i => tallyTrashItem a (outcome i)) acc)
termination_by fileIds.length
decreasing_by simp [List.length_drop]; omega

/-- batchTrashFiles (lines 739-809): early return of a zero tally on an
empty id list, otherwise the batch loop from a zero-initialized tally. -/
def batchTrashFiles (outcome : String → MutOutcome) (fileIds : List String) :
    BatchResults :=
  if fileIds = [] then zeroResults
  else trashBatchLoop outcome fileIds zeroResults

/-- The batch loop of batchDeleteFiles (lines 822-864), identical to the
trash loop except for the per-item tally. -/
def deleteBatchLoop (outcome : String → MutOutcome) (fileIds : List String)
    (acc : BatchResults) : BatchResults :=
  match fileIds with
  | [] => acc
  | x :: rest =>
      deleteBatchLoop outcome ((x :: rest).drop 10)
        (((x :: rest).take 10).foldl (fun a i => tallyDeleteItem a (outcome i)) acc)
termination_by fileIds.length
decreasing_by simp [List.length_drop]; omega

/-- batchDeleteFiles (lines 811-867). -/
def batchDeleteFiles (outcome : String → MutOutcome) (fileIds : List String) :
    BatchResults :=
  if fileIds = [] then zeroResults
  else deleteBatchLoop outcome fileIds zeroResults

/-- Sum of the four counters of a batch result. -/
def sumCounts (r : BatchResults) : Nat :=
  r.success + r.notFound + r.permissionDenied + r.otherErrors

/-- Outcome of the per-record existence probe in refreshDuplicateMap: the
drive.files.get resolves (existsV), rejects with File not found
(notFoundV), the 10-second race timer fires first (timeoutV), or another
error is thrown and caught by the outer catch (errorV). -/
inductive VerifyOutcome where
  | existsV
  | notFoundV
  | timeoutV
  | errorV
deriving DecidableEq, Repr

/-- Per-record retention decision of refreshDuplicateMap (lines 396-427): the
record is pushed onto the refreshed group unless the probe said File not
found; a timeout resolves to true (assume it exists) and a thrown error is
caught and the record is kept. -/
def refreshKeep (verify : String → VerifyOutcome) (r : Record) : Bool :=
  decide (verify r.id ≠ VerifyOutcome.notFoundV)

/-- refreshDuplicateMap (lines 354-457) on the path where the 5-minute
wall-clock break never fires and no error escapes to the outer catch: each
group is filtered by the retention decision and an entry is deleted from
the refreshed map exactly when no instance survived. -/
def refreshDuplicateMap (verify : String → VerifyOutcome) (duplicateMap : DupMap) :
    DupMap :=
  duplicateMap.filterMap fun g =>
    if (g.2.filter (refreshKeep verify)).length = 0 then none
    else some (g.1, g.2.filter (refreshKeep verify))

/-- JS String.toLowerCase as used on the one-character confirmation
answers, on the character-list view (ASCII lowering). -/
def jsToLower (s : String) : String :=
  String.mk (s.data.map Char.toLower)

/-- trashDuplicatesExceptFirst (lines 132-198) with the interactive prompt
replaced by the answer string and the remote mutations by the outcome
oracle.  Returns the tally together with the list of ids actually
submitted to batchTrashFiles; on the empty-target early return and on the
refused confirmation the source returns an all-zero tally and nothing is
submitted. -/
def trashDuplicatesExceptFirst (outcome : String → MutOutcome)
    (confirmAnswer : String) (duplicateMap : DupMap) :
    BatchResults × List String :=
  if (fileIdsToTrash duplicateMap).length = 0 then (zeroResults, [])
  else if jsToLower confirmAnswer ≠ "y" then (zeroResults, [])
  else (batchTrashFiles outcome (fileIdsToTrash duplicateMap),
        fileIdsToTrash duplicateMap)

/-- deleteAllDuplicatesExceptFirst (lines 288-352): the confirmation prompt
is only consulted when skipVerification is false; a refused confirmation
returns an all-zero tally with nothing submitted to batchDeleteFiles. -/
def deleteAllDuplicatesExceptFirst (outcome : String → MutOutcome)
    (duplicateMap : DupMap) (skipVerification : Bool) (confirmAnswer : String) :
    BatchResults × List String :=
  if (fileIdsToDelete duplicateMap).length = 0 then (zeroResults, [])
  else if ¬skipVerification ∧ jsToLower confirmAnswer ≠ "y" then (zeroResults, [])
  else (batchDeleteFiles outcome (fileIdsToDelete duplicateMap),
        fileIdsToDelete duplicateMap)

/-- The option-2 branch of handleDuplicates (lines 259-263): the user is
asked whether to skip verification and the answer, lowercased and compared
with y, becomes the skipVerification argument. -/
def handleDuplicatesOption2 (outcome : String → MutOutcome)
    (skipAnswer confirmAnswer : String) (duplicateMap : DupMap) :
    BatchResults × List String :=
  deleteAllDuplicatesExceptFirst outcome duplicateMap
    (jsToLower skipAnswer == "y") confirmAnswer

/-- JS String.split on the comma separator, on the character-list view:
every comma opens a new token, and an input with n commas yields n + 1
tokens (so the empty input yields one empty token, as in JS). -/
def splitOnComma : List Char → List (List Char)
  | [] => [[]]
  | c :: cs =>
      match splitOnComma cs with
      | [] => [[]]
      | t :: ts => if c = ',' then [] :: t :: ts else (c :: t) :: ts

/-- Whitespace test used by the trim embedding; the work-list tokens only
ever carry ASCII whitespace. -/
def isSpaceChar (c : Char) : Bool :=
  c = ' ' || c = '\t' || c = '\n' || c = '\r'

/-- JS String.trim: strip whitespace from both ends. -/
def trimChars (cs : List Char) : List Char :=
  (((cs.dropWhile isSpaceChar).reverse).dropWhile isSpaceChar).reverse

/-- The work-list parse in transcodeFile (lines 1219-1222): split the file
content on commas, trim each token, drop empty tokens. -/
def parseWorkList (fileContent : String) : List String :=
  (((splitOnComma fileContent.data).map trimChars).filter
    (fun id => 0 < id.length)).map fun cs => String.mk cs

/-- The index predicate of the keyListToProcess filter: JS evaluates
index % totalInstances === currentInstance.  For a nonnegative dividend the
JS remainder equals the dividend modulo the absolute value of the divisor,
and a zero divisor yields NaN, which compares unequal to everything. -/
def jsIndexMatches (totalInstances currentInstance : Int) (index : Nat) : Bool :=
  if totalInstances = 0 then false
  else ((index % totalInstances.natAbs : Nat) : Int) == currentInstance

/-- keyListToProcess (lines 1225-1227) at the level of index-value pairs:
the JS Array.filter callback receives the element and its index, embedded
here by filtering the enumerated list. -/
def keyListEnum (currentInstance totalInstances : Int) (allFiles : List String) :
    List (Nat × String) :=
  allFiles.enum.filter fun p => jsIndexMatches totalInstances currentInstance p.1

/-- keyListToProcess (lines 1225-1227): the elements whose original index
matches the instance predicate, in original order. -/
def keyListToProcess (currentInstance totalInstances : Int)
    (allFiles : List String) : List String :=
  (keyListEnum currentInstance totalInstances allFiles).map Prod.snd

/-- JS String.lastIndexOf of the dot character, on the character-list view
of the key: index of the last occurrence, -1 when absent. -/
def lastIndexOfDot : List Char → Int
  | [] => -1
  | c :: cs =>
      let r := lastIndexOfDot cs
      if 0 ≤ r then r + 1 else if c = '.' then 0 else -1

/-- JS String.slice(0, e): a negative end counts from the end of the string
and the result is clamped at the empty prefix; Int.toNat performs the
clamping of a negative bound to 0. -/
def jsSliceTo (cs : List Char) (e : Int) : List Char :=
  cs.take (if e < 0 then (cs.length : Int) + e else e).toNat

/-- The derived destination name of processFile (lines 1049-1050 of the main
script and 367-368 of the variant): keyPath is the slice of the key up to
lastIndexOf of the dot, and the converted key appends the suffix. -/
def convertedKeyChars (key : List Char) : List Char :=
  jsSliceTo key (lastIndexOfDot key) ++ ("_converted.mp4".toList)

/-- Terminal status of one work item in processFile: skipped via the S3
existence check, skipped via the Drive existence check, failed download,
failed transcode, or completed. -/
inductive ItemStatus where
  | skippedS3
  | skippedDrive
  | failedDownload
  | failedTranscode
  | done
deriving DecidableEq, Repr

/-- Environment facts observed by one processFile run: results of the
existence checks, of the download, transcode and upload attempts, and of
the existsSync probes at the cleanup points.  uploadOk is carried for
fidelity although uploadToGoogleDrive swallows its own errors, so it never
influences the observable outcome. -/
structure PipelineEnv where
  convertedExistsS3 : Bool
  driveOn : Bool
  folderOk : Bool
  fileInDrive : Bool
  inputExists0 : Bool
  outputExists0 : Bool
  downloadOk : Bool
  transcodeOk : Bool
  uploadOk : Bool
  inputExistsC : Bool
  outputExistsC : Bool
deriving DecidableEq, Repr

/-- Observable outcome of one processFile run: the terminal status, the
file paths appended to error_transcode.txt by logError (each call appends
exactly the filePath argument as one line), and whether the local input
and output artifacts were unlinked. -/
structure PipelineOutcome where
  status : ItemStatus
  errorLogLines : List String
  deletedInput : Bool
  deletedOutput : Bool
deriving DecidableEq, Repr

/-- processFile of src/s3-transcode-upload.mjs (lines 1045-1176).  Control
flow: S3 existence skip; Drive existence skip (which unlinks whichever
local artifacts exist and writes one logError line); download when no
local input exists, one logError line and return on failure; transcode,
one logError line on failure; on transcode success the Drive upload stage
writes one logError line only when the camera folder lookup failed
(uploadToGoogleDrive catches its own errors and returns null); the finally
block unlinks the input only when it was downloaded this run or the
transcode succeeded and it exists, and unlinks the output whenever it
exists.  Unlinks of existing files are modelled as succeeding, so the
cleanup catch contributes no log line. -/
def processFile (e : PipelineEnv) (inputKey : String) : PipelineOutcome :=
  if e.convertedExistsS3 then
    { status := .skippedS3, errorLogLines := [],
      deletedInput := false, deletedOutput := false }
  else if e.driveOn && e.folderOk && e.fileInDrive then
    { status := .skippedDrive, errorLogLines := [inputKey],
      deletedInput := e.inputExists0, deletedOutput := e.outputExists0 }
  else
    let downloaded := !e.inputExists0
    if downloaded && !e.downloadOk then
      { status := .failedDownload, errorLogLines := [inputKey],
        deletedInput := false, deletedOutput := false }
    else
      let uploadLogs := if e.transcodeOk && (e.driveOn && !e.folderOk)
        then [inputKey] else []
      let transcodeLogs := if e.transcodeOk then [] else [inputKey]
      { status := if e.transcodeOk then .done else .failedTranscode,
        errorLogLines := uploadLogs ++ transcodeLogs,
        deletedInput := (downloaded || e.transcodeOk) && e.inputExistsC,
        deletedOutput := e.outputExistsC }

/-- processFile of the src/unnamed/part_000 variant (lines 363-470).
Differences from the main script: the Drive existence skip neither unlinks
nor logs; there is no finally block, so on transcode failure no cleanup
runs at all; on transcode success the cleanup calls unlink on the input
and then on the output without existsSync guards, so a missing input
aborts the cleanup before the output unlink (the thrown error is caught
and logged as one line). -/
def processFileV0 (e : PipelineEnv) (inputKey : String) : PipelineOutcome :=
  if e.convertedExistsS3 then
    { status := .skippedS3, errorLogLines := [],
      deletedInput := false, deletedOutput := false }
  else if e.driveOn && e.folderOk && e.fileInDrive then
    { status := .skippedDrive, errorLogLines := [],
      deletedInput := false, deletedOutput := false }
  else
    let downloaded := !e.inputExists0
    if downloaded && !e.downloadOk then
      { status := .failedDownload, errorLogLines := [inputKey],
        deletedInput := false, deletedOutput := false }
    else if !e.transcodeOk then
      { status := .failedTranscode, errorLogLines := [inputKey],
        deletedInput := false, deletedOutput := false }
    else
      let uploadLogs := if e.driveOn && !e.folderOk then [inputKey] else []
      if e.inputExistsC then
        if e.outputExistsC then
          { status := .done, errorLogLines := uploadLogs,
            deletedInput := true, deletedOutput := true }
        else
          { status := .done, errorLogLines := uploadLogs ++ [inputKey],
            deletedInput := true, deletedOutput := false }
      else
        { status := .done, errorLogLines := uploadLogs ++ [inputKey],
          deletedInput := false, deletedOutput := false }

theorem trashBatchLoop_eq_foldl (o : String → MutOutcome) :
    ∀ (ids : List String) (acc : BatchResults),
      trashBatchLoop o ids acc
        = ids.foldl (fun a i => tallyTrashItem a (o i)) acc := by
  have key : ∀ (n : Nat) (ids : List String), ids.length ≤ n → ∀ acc,
      trashBatchLoop o ids acc
        = ids.foldl (fun a i => tallyTrashItem a (o i)) acc := by
    intro n
    induction n with
    | zero =>
      intro ids h acc
      have hnil : ids = [] := List.eq_nil_of_length_eq_zero (Nat.le_zero.mp h)
      subst hnil
      simp [trashBatchLoop]
    | succ n ih =>
      intro ids h acc
      cases ids with
      | nil => simp [trashBatchLoop]
      | cons x rest =>
        rw [trashBatchLoop]
        rw [ih ((x :: rest).drop 10) (by simp at h ⊢; omega)]
        rw [← List.foldl_append, List.take_append_drop]
  intro ids acc
  exact key ids.length ids le_rfl acc

theorem deleteBatchLoop_eq_foldl (o : String → MutOutcome) :
    ∀ (ids : List String) (acc : BatchResults),
      deleteBatchLoop o ids acc
        = ids.foldl (fun a i => tallyDeleteItem a (o i)) acc := by
  have key : ∀ (n : Nat) (ids : List String), ids.length ≤ n → ∀ acc,
      deleteBatchLoop o ids acc
        = ids.foldl (fun a i => tallyDeleteItem a (o i)) acc := by
    intro n
    induction n with
    | zero =>
      intro ids h acc
      have hnil : ids = [] := List.eq_nil_of_length_eq_zero (Nat.le_zero.mp h)
      subst hnil
      simp [deleteBatchLoop]
    | succ n ih =>
      intro ids h acc
      cases ids with
      | nil => simp [deleteBatchLoop]
      | cons x rest =>
        rw [deleteBatchLoop]
        rw [ih ((x :: rest).drop 10) (by simp at h ⊢; omega)]
        rw [← List.foldl_append, List.take_append_drop]
  intro ids acc
  exact key ids.length ids le_rfl acc

theorem sumCounts_foldl_trash (o : String → MutOutcome) (ids : List String) :
    ∀ acc, sumCounts (ids.foldl (fun a i => tallyTrashItem a (o i)) acc)
      = sumCounts acc + ids.length := by
  induction ids with
  | nil => intro acc; simp
  | cons x rest ih =>
    intro acc
    rw [List.foldl_cons, ih]
    cases o x <;> simp [tallyTrashItem, sumCounts] <;> omega

theorem sumCounts_foldl_delete (o : String → MutOutcome) (ids : List String) :
    ∀ acc, sumCounts (ids.foldl (fun a i => tallyDeleteItem a (o i)) acc)
      = sumCounts acc + ids.countP (fun i => decide (o i ≠ MutOutcome.otherError)) := by
  induction ids with
  | nil => intro acc; simp
  | cons x rest ih =>
    intro acc
    rw [List.foldl_cons, ih, List.countP_cons]
    cases h : o x <;> simp [tallyDeleteItem, sumCounts, h] <;> omega

/-- C2 (amended): for batchTrashFiles the four counts always sum to the
number of submitted ids, for any mix of outcomes; for batchDeleteFiles the
counts sum only to the number of ids whose outcome is not classified as an
other-error, because its results object has no otherErrors field and its
default switch branch counts nothing. -/
theorem c2_batch_counts (outcome : String → MutOutcome) (fileIds : List String) :
    sumCounts (batchTrashFiles outcome fileIds) = fileIds.length
    ∧ sumCounts (batchDeleteFiles outcome fileIds)
      = fileIds.countP (fun i => decide (outcome i ≠ MutOutcome.otherError)) := by
  constructor
  · unfold batchTrashFiles
    split
    · next h => subst h; rfl
    · rw [trashBatchLoop_eq_foldl, sumCounts_foldl_trash]
      simp [zeroResults, sumCounts]
  · unfold batchDeleteFiles
    split
    · next h => subst h; rfl
    · rw [deleteBatchLoop_eq_foldl, sumCounts_foldl_delete]
      simp [zeroResults, sumCounts]

/-- C2 counterexample: submitting one id whose mutation fails with an
unclassified error makes the batchDeleteFiles counts sum to 0, not to the
number of submitted ids (1): the claim fails for the batch delete
operation. -/
theorem c2_counterexample :
    sumCounts (batchDeleteFiles (fun _ => MutOutcome.otherError) ["x"]) = 0
    ∧ (["x"] : List String).length = 1 := by
  constructor
  · have h : batchDeleteFiles (fun _ => MutOutcome.otherError) ["x"]
        = deleteBatchLoop (fun _ => MutOutcome.otherError) ["x"] zeroResults := by
      simp [batchDeleteFiles]
    rw [h, deleteBatchLoop_eq_foldl]
    rfl
  · rfl

/-- C4 (amended): the scripts perform no validation of the partitioning
parameters and no ConfigError exists: keyListToProcess is a total filter.
With totalInstances equal to 0 every JS index comparison is against NaN
and the partition is empty; with totalInstances at least 1 and an
instanceIndex outside the valid range the partition is also empty; in both
cases the run simply proceeds with zero items. -/
theorem c4_no_config_error (N k : Int) (xs : List String)
    (h : N = 0 ∨ (1 ≤ N ∧ (k < 0 ∨ N ≤ k))) :
    keyListToProcess k N xs = [] := by
  unfold keyListToProcess keyListEnum
  have hall : ∀ p ∈ xs.enum, ¬(jsIndexMatches N k p.1 = true) := by
    intro p _
    unfold jsIndexMatches
    rcases h with h0 | ⟨h1, hk⟩
    · simp [h0]
    · have hN0 : N ≠ 0 := by omega
      rw [if_neg hN0]
      simp only [beq_iff_eq]
      have hlt : (p.1 % N.natAbs) < N.natAbs := Nat.mod_lt _ (by omega)
      rcases hk with hk | hk <;> omega
  rw [List.filter_eq_nil_iff.mpr hall]
  rfl

theorem c4_no_config_error_witness :
    keyListToProcess 5 3 ["a"] = [] :=
  c4_no_config_error 3 5 ["a"] (Or.inr ⟨by decide, Or.inr (by decide)⟩)

/-- C4 counterexample: the claim that the partitioner fails with a
ConfigError and produces no partition for invalid parameters is false:
with totalInstances equal to -2 (which is less than 1) and instanceIndex 1
the code produces the nonempty partition of the odd-index elements, and
with totalInstances 0 it silently produces the empty partition; no error
is raised in either case. -/
theorem c4_counterexample :
    keyListToProcess 1 (-2) ["a", "b", "c"] = ["b"]
    ∧ keyListToProcess 0 0 ["a", "b"] = [] := by
  decide

theorem lastIndexOfDot_of_not_mem (k : List Char) (h : '.' ∉ k) :
    lastIndexOfDot k = -1 := by
  induction k with
  | nil => rfl
  | cons c cs ih =>
    simp only [List.mem_cons, not_or] at h
    obtain ⟨h1, h2⟩ := h
    have h1c : ¬(c = '.') := fun hc => h1 hc.symm
    simp [lastIndexOfDot, ih h2, h1c]

theorem lastIndexOfDot_append (p s : List Char) (h : '.' ∉ s) :
    lastIndexOfDot (p ++ '.' :: s) = (p.length : Int) := by
  induction p with
  | nil =>
    simp [lastIndexOfDot, lastIndexOfDot_of_not_mem s h]
  | cons c cs ih =>
    have hnn : (0 : Int) ≤ (cs.length : Int) := by positivity
    simp [lastIndexOfDot, ih, hnn]

/-- C10: the derived destination name of a source key containing a dot is
the key with everything from the last dot onward replaced by the
_converted.mp4 suffix; for a key containing no dot at all, the JS slice
bound lastIndexOf = -1 drops the final character of the key before
appending the suffix, silently mangling extension-less keys. -/
theorem c10_converted_key_derivation :
    (∀ p s : List Char, '.' ∉ s →
      convertedKeyChars (p ++ '.' :: s) = p ++ ("_converted.mp4".toList))
    ∧ (∀ k : List Char, '.' ∉ k →
      convertedKeyChars k = k.dropLast ++ ("_converted.mp4".toList)) := by
  constructor
  · intro p s hs
    unfold convertedKeyChars jsSliceTo
    rw [lastIndexOfDot_append p s hs]
    have hge : ¬((p.length : Int) < 0) := by omega
    rw [if_neg hge, Int.toNat_natCast, List.take_left]
  · intro k hk
    unfold convertedKeyChars jsSliceTo
    rw [lastIndexOfDot_of_not_mem k hk]
    rw [if_pos (by decide : (-1 : Int) < 0)]
    have ht : ((k.length : Int) + (-1)).toNat = k.length - 1 := by omega
    rw [ht, List.dropLast_eq_take]

theorem c10_witness :
    convertedKeyChars ("camera-1/a".toList ++ '.' :: "mov".toList)
      = "camera-1/a".toList ++ ("_converted.mp4".toList)
    ∧ convertedKeyChars ("abc".toList)
      = ("abc".toList).dropLast ++ ("_converted.mp4".toList) :=
  ⟨c10_converted_key_derivation.1 "camera-1/a".toList "mov".toList (by decide),
   c10_converted_key_derivation.2 "abc".toList (by decide)⟩

/-- C8 (amended): in the main script the finally-block cleanup deletes the
input artifact exactly when it was downloaded this run or transcoding
succeeded and it exists on disk, and deletes the output artifact exactly
when it exists, for both terminal outcomes that reach cleanup; but in the
part_000 variant cleanup runs only on the transcode-success path, so after
a failed transcode neither artifact is deleted (and there the output
unlink is even skipped when the input unlink throws). -/
theorem c8_cleanup_policy (e : PipelineEnv) (key : String) :
    ((processFile e key).deletedInput = (match (processFile e key).status with
        | .skippedS3 => false
        | .skippedDrive => e.inputExists0
        | .failedDownload => false
        | .failedTranscode => (!e.inputExists0 || e.transcodeOk) && e.inputExistsC
        | .done => (!e.inputExists0 || e.transcodeOk) && e.inputExistsC)
      ∧ (processFile e key).deletedOutput = (match (processFile e key).status with
        | .skippedS3 => false
        | .skippedDrive => e.outputExists0
        | .failedDownload => false
        | .failedTranscode => e.outputExistsC
        | .done => e.outputExistsC))
    ∧ ((processFileV0 e key).deletedInput
        = (((processFileV0 e key).status == ItemStatus.done) && e.inputExistsC)
      ∧ (processFileV0 e key).deletedOutput
        = (((processFileV0 e key).status == ItemStatus.done)
            && e.inputExistsC && e.outputExistsC)) := by
  obtain ⟨c, d, f, fd, i0, o0, dl, t, u, ic, oc⟩ := e
  cases c <;> cases d <;> cases f <;> cases fd <;> cases i0 <;> cases dl <;>
    cases t <;> cases ic <;> cases oc <;> exact ⟨⟨rfl, rfl⟩, rfl, rfl⟩

/-- C8 counterexample: in the part_000 variant, a pre-existing local input
that fails to transcode ends with status failedTranscode and no cleanup at
all: the output artifact exists but is not deleted, contradicting the
claim that the output artifact is deleted whenever it exists regardless of
transcode outcome. -/
theorem c8_counterexample :
    (processFileV0 ⟨false, false, false, false, true, false, true, false, true, true, true⟩
        "a.mov").status = ItemStatus.failedTranscode
    ∧ (processFileV0 ⟨false, false, false, false, true, false, true, false, true, true, true⟩
        "a.mov").deletedOutput = false
    ∧ (⟨false, false, false, false, true, false, true, false, true, true, true⟩
        : PipelineEnv).outputExistsC = true := by
  decide

/-- C9 (amended): in the main script an item skipped via the S3 existence
check contributes no error-log line and a failed item contributes exactly
one line for its key, but an item skipped because its output name already
exists in the Drive destination also contributes one line, and a completed
item contributes one line whenever the camera-folder lookup failed. -/
theorem c9_error_log_lines (e : PipelineEnv) (key : String) :
    (processFile e key).errorLogLines =
      (match (processFile e key).status with
        | .skippedS3 => []
        | .skippedDrive => [key]
        | .failedDownload => [key]
        | .failedTranscode => [key]
        | .done => if e.driveOn && !e.folderOk then [key] else []) := by
  obtain ⟨c, d, f, fd, i0, o0, dl, t, u, ic, oc⟩ := e
  cases c <;> cases d <;> cases f <;> cases fd <;> cases i0 <;> cases dl <;>
    cases t <;> rfl

/-- C9 counterexample: an item whose converted name already exists in the
Drive destination ends skipped (not failed), yet the code writes one
error-log line for it, contradicting the claim that skipped items
contribute no error-log line. -/
theorem c9_counterexample :
    (processFile ⟨false, true, true, true, false, false, true, true, true, false, false⟩
        "a.mov").status = ItemStatus.skippedDrive
    ∧ (processFile ⟨false, true, true, true, false, false, true, true, true, false, false⟩
        "a.mov").errorLogLines = ["a.mov"] := by
  decide

/-- C7 (amended): the staleness refresh keeps a record whose verification
timed out (timeout resolves to assume-exists), never adds records (every
group in the returned map is the filtered version of a group of the input
map), does not reorder groups, and drops exactly the groups whose filtered
version is empty — a group that shrinks to exactly one surviving record is
retained, not dropped. -/
theorem c7_refresh_properties (verify : String → VerifyOutcome) (m : DupMap) :
    (∀ p ∈ refreshDuplicateMap verify m,
      ∃ l, (p.1, l) ∈ m ∧ p.2 = l.filter (refreshKeep verify) ∧ p.2 ≠ [])
    ∧ (∀ g ∈ m, g.2.filter (refreshKeep verify) ≠ [] →
        (g.1, g.2.filter (refreshKeep verify)) ∈ refreshDuplicateMap verify m)
    ∧ (∀ r : Record, verify r.id = VerifyOutcome.timeoutV →
        refreshKeep verify r = true) := by
  refine ⟨?_, ?_, ?_⟩
  · intro p hp
    unfold refreshDuplicateMap at hp
    rw [List.mem_filterMap] at hp
    obtain ⟨g, hg, he⟩ := hp
    by_cases h0 : (g.2.filter (refreshKeep verify)).length = 0
    · rw [if_pos h0] at he
      exact absurd he (by simp)
    · rw [if_neg h0] at he
      injection he with he
      refine ⟨g.2, ?_, ?_, ?_⟩
      · rw [← he]
        exact hg
      · rw [← he]
      · rw [← he]
        intro hnil
        have hf : List.filter (refreshKeep verify) g.2 = [] := hnil
        rw [hf] at h0
        exact h0 rfl
  · intro g hg hne
    unfold refreshDuplicateMap
    rw [List.mem_filterMap]
    refine ⟨g, hg, ?_⟩
    rw [if_neg (by simpa [List.length_eq_zero] using hne)]
  · intro r h
    unfold refreshKeep
    simp [h]

theorem c7_witness :
    ("a", ([⟨"1", "a", some "p"⟩] : List Record).filter
        (refreshKeep (fun _ => VerifyOutcome.timeoutV)))
      ∈ refreshDuplicateMap (fun _ => VerifyOutcome.timeoutV)
          [("a", [⟨"1", "a", some "p"⟩])] :=
  (c7_refresh_properties (fun _ => VerifyOutcome.timeoutV)
      [("a", [⟨"1", "a", some "p"⟩])]).2.1
    ("a", [⟨"1", "a", some "p"⟩]) (by decide) (by decide)

/-- C7 counterexample: a two-record group of which one record is reported
not-found shrinks to one surviving record, and the refresh retains that
one-record group in the returned map instead of dropping it, contradicting
the claim that every group shrinking to at most one record is dropped. -/
theorem c7_counterexample :
    refreshDuplicateMap
        (fun id => if id == "2" then VerifyOutcome.notFoundV else VerifyOutcome.existsV)
        [("a", [⟨"1", "a", some "p"⟩, ⟨"2", "a", some "p"⟩])]
      = [("a", [⟨"1", "a", some "p"⟩])] := by
  decide

/-- C6: for both destructive strategies no remote mutation is submitted
unless an explicit y confirmation was given, and when the confirmation is
refused nothing is mutated and the returned tally is all zeros: with a
refused confirmation trashDuplicatesExceptFirst and (without the
skip-verification shortcut) deleteAllDuplicatesExceptFirst return the zero
tally and submit no ids, the handleDuplicates option-2 path with both its
answers refused does the same, and any run of either strategy that did
submit ids received a y answer at one of its prompts. -/
theorem c6_confirmation_gate (outcome : String → MutOutcome) (m : DupMap)
    (skipAnswer confirmAnswer : String)
    (hc : jsToLower confirmAnswer ≠ "y") (hs : jsToLower skipAnswer ≠ "y") :
    trashDuplicatesExceptFirst outcome confirmAnswer m = (zeroResults, [])
    ∧ deleteAllDuplicatesExceptFirst outcome m false confirmAnswer = (zeroResults, [])
    ∧ handleDuplicatesOption2 outcome skipAnswer confirmAnswer m = (zeroResults, [])
    ∧ (∀ (sa ca : String) (m' : DupMap),
        (handleDuplicatesOption2 outcome sa ca m').2 ≠ [] →
          jsToLower sa = "y" ∨ jsToLower ca = "y")
    ∧ (∀ (ca : String) (m' : DupMap),
        (trashDuplicatesExceptFirst outcome ca m').2 ≠ [] → jsToLower ca = "y") := by
  refine ⟨?_, ?_, ?_, ?_, ?_⟩
  · unfold trashDuplicatesExceptFirst
    by_cases h1 : (fileIdsToTrash m).length = 0
    · rw [if_pos h1]
    · rw [if_neg h1, if_pos hc]
  · unfold deleteAllDuplicatesExceptFirst
    by_cases h1 : (fileIdsToDelete m).length = 0
    · rw [if_pos h1]
    · rw [if_neg h1, if_pos (show ¬(false : Bool) = true ∧ jsToLower confirmAnswer ≠ "y"
        from And.intro (by simp) hc)]
  · unfold handleDuplicatesOption2 deleteAllDuplicatesExceptFirst
    by_cases h1 : (fileIdsToDelete m).length = 0
    · rw [if_pos h1]
    · rw [if_neg h1, if_pos (show ¬(jsToLower skipAnswer == "y") = true
          ∧ jsToLower confirmAnswer ≠ "y"
        from And.intro (by simpa using hs) hc)]
  · intro sa ca m' h
    unfold handleDuplicatesOption2 deleteAllDuplicatesExceptFirst at h
    by_cases h0 : (fileIdsToDelete m').length = 0
    · rw [if_pos h0] at h
      simp at h
    · rw [if_neg h0] at h
      by_cases hcond : ¬(jsToLower sa == "y") = true ∧ jsToLower ca ≠ "y"
      · rw [if_pos hcond] at h
        simp at h
      · rcases Decidable.not_and_iff_or_not.mp hcond with hy | hy
        · exact Or.inl (by simpa using hy)
        · exact Or.inr (by simpa using hy)
  · intro ca m' h
    unfold trashDuplicatesExceptFirst at h
    by_cases h0 : (fileIdsToTrash m').length = 0
    · rw [if_pos h0] at h
      simp at h
    · rw [if_neg h0] at h
      by_cases hy : jsToLower ca ≠ "y"
      · rw [if_pos hy] at h
        simp at h
      · exact not_not.mp hy

theorem c6_confirmation_gate_witness :
    trashDuplicatesExceptFirst (fun _ => MutOutcome.success) "n"
        [("a", [⟨"1", "a", none⟩, ⟨"2", "a", none⟩])] = (zeroResults, [])
    ∧ handleDuplicatesOption2 (fun _ => MutOutcome.success) "no" "N"
        [("a", [⟨"1", "a", none⟩, ⟨"2", "a", none⟩])] = (zeroResults, []) :=
  ⟨(c6_confirmation_gate (fun _ => MutOutcome.success)
      [("a", [⟨"1", "a", none⟩, ⟨"2", "a", none⟩])] "no" "n"
      (by decide) (by decide)).1,
   (c6_confirmation_gate (fun _ => MutOutcome.success)
      [("a", [⟨"1", "a", none⟩, ⟨"2", "a", none⟩])] "no" "N"
      (by decide) (by decide)).2.2.1⟩

theorem mem_fileIdsToDelete_mem_allIds (m : DupMap) (x : String)
    (hx : x ∈ fileIdsToDelete m) : x ∈ allIds m := by
  unfold fileIdsToDelete at hx
  unfold allIds
  rw [List.mem_flatMap] at hx ⊢
  obtain ⟨g, hg, hin⟩ := hx
  refine ⟨g, hg, ?_⟩
  by_cases h : 1 < g.2.length
  · rw [if_pos h] at hin
    rw [List.mem_map] at hin ⊢
    obtain ⟨r, hr, hrid⟩ := hin
    exact ⟨r, List.mem_of_mem_drop hr, hrid⟩
  · rw [if_neg h] at hin
    exact absurd hin (List.not_mem_nil x)

theorem mem_group_mem_allIds (m : DupMap) (g : String × List Record)
    (hg : g ∈ m) (x : String) (hx : x ∈ g.2.map (fun r => r.id)) :
    x ∈ allIds m := by
  unfold allIds
  rw [List.mem_flatMap]
  exact ⟨g, hg, hx⟩

theorem head_id_not_in_targets (m : DupMap) (hnd : (allIds m).Nodup) :
    ∀ g ∈ m, ∀ r, g.2.head? = some r → r.id ∉ fileIdsToDelete m := by
  induction m with
  | nil =>
    intro g hg
    exact absurd hg (List.not_mem_nil g)
  | cons a rest ih =>
    have hsplit : allIds (a :: rest) = a.2.map (fun r => r.id) ++ allIds rest := by
      unfold allIds
      rw [List.flatMap_cons]
    rw [hsplit, List.nodup_append] at hnd
    obtain ⟨hnda, hndrest, hdisj⟩ := hnd
    intro g hg r hr
    have htsplit : fileIdsToDelete (a :: rest)
        = (if 1 < a.2.length then (a.2.drop 1).map (fun x => x.id) else [])
          ++ fileIdsToDelete rest := by
      unfold fileIdsToDelete
      rw [List.flatMap_cons]
    rcases List.mem_cons.mp hg with hga | hgrest
    · subst hga
      obtain ⟨tl, htl⟩ : ∃ tl, g.2 = r :: tl := by
        cases hl : g.2 with
        | nil => rw [hl] at hr; exact absurd hr (by simp)
        | cons y ys =>
            rw [hl] at hr
            simp only [List.head?_cons, Option.some_inj] at hr
            exact ⟨ys, by rw [hr]⟩
      rw [htsplit]
      rw [List.mem_append]
      rintro (hfirst | hrest)
      · by_cases h : 1 < g.2.length
        · rw [if_pos h] at hfirst
          rw [htl] at hfirst
          simp only [List.drop_succ_cons, List.drop_zero] at hfirst
          have : r.id :: tl.map (fun x => x.id) = g.2.map (fun x => x.id) := by
            rw [htl]; rfl
          rw [htl] at hnda
          simp only [List.map_cons, List.nodup_cons] at hnda
          exact hnda.1 hfirst
        · rw [if_neg h] at hfirst
          exact absurd hfirst (List.not_mem_nil r.id)
      · have hid_in_a : r.id ∈ g.2.map (fun x => x.id) := by
          rw [htl]
          exact List.mem_cons_self _ _
        have : r.id ∉ allIds rest := hdisj hid_in_a
        exact this (mem_fileIdsToDelete_mem_allIds rest r.id hrest)
    · have hnot_rest : r.id ∉ fileIdsToDelete rest := ih hndrest g hgrest r hr
      rw [htsplit, List.mem_append]
      rintro (hfirst | hrest2)
      · have hid_in_g : r.id ∈ g.2.map (fun x => x.id) := by
          rw [List.mem_map]
          exact ⟨r, List.mem_of_mem_head? hr, rfl⟩
        have hid_in_rest : r.id ∈ allIds rest :=
          mem_group_mem_allIds rest g hgrest r.id hid_in_g
        by_cases h : 1 < a.2.length
        · rw [if_pos h] at hfirst
          have hid_in_a : r.id ∈ a.2.map (fun x => x.id) := by
            rw [List.mem_map] at hfirst ⊢
            obtain ⟨y, hy, hyid⟩ := hfirst
            exact ⟨y, List.mem_of_mem_drop hy, hyid⟩
          exact hdisj hid_in_a hid_in_rest
        · rw [if_neg h] at hfirst
          exact absurd hfirst (List.not_mem_nil r.id)
      · exact hnot_rest hrest2

/-- C1: for every duplicate map whose record ids are pairwise distinct, the
keep-first delete, keep-first trash and rename-with-parent-suffix
strategies collect exactly the same targets, every collected target comes
from index 1 or beyond of some group, and the first-seen record of a group
is never among the mutation targets of any of the three strategies. -/
theorem c1_first_never_targeted (m : DupMap) (hnd : (allIds m).Nodup) :
    fileIdsToTrash m = fileIdsToDelete m
    ∧ (renameDuplicatesTargets m).map (fun r => r.id) = fileIdsToDelete m
    ∧ (∀ g ∈ m, ∀ r, g.2.head? = some r →
        r.id ∉ fileIdsToDelete m ∧ r.id ∉ fileIdsToTrash m
          ∧ r ∉ renameDuplicatesTargets m)
    ∧ (∀ x ∈ fileIdsToDelete m, ∃ g ∈ m, x ∈ (g.2.drop 1).map (fun r => r.id)) := by
  have hmap : (renameDuplicatesTargets m).map (fun r => r.id) = fileIdsToDelete m := by
    clear hnd
    unfold renameDuplicatesTargets fileIdsToDelete
    induction m with
    | nil => rfl
    | cons a rest ih =>
        rw [List.flatMap_cons, List.flatMap_cons, List.map_append, ih]
        by_cases h : 1 < a.2.length
        · rw [if_pos h, if_pos h]
        · rw [if_neg h, if_neg h]
          rfl
  refine ⟨rfl, hmap, ?_, ?_⟩
  · intro g hg r hr
    have hdel := head_id_not_in_targets m hnd g hg r hr
    refine ⟨hdel, hdel, ?_⟩
    intro hren
    exact hdel (by
      rw [← hmap, List.mem_map]
      exact ⟨r, hren, rfl⟩)
  · intro x hx
    unfold fileIdsToDelete at hx
    rw [List.mem_flatMap] at hx
    obtain ⟨g, hg, hin⟩ := hx
    by_cases h : 1 < g.2.length
    · rw [if_pos h] at hin
      exact ⟨g, hg, hin⟩
    · rw [if_neg h] at hin
      exact absurd hin (List.not_mem_nil x)

theorem c1_first_never_targeted_witness :
    ("id1" ∉ fileIdsToDelete
        [("x.mp4", [⟨"id1", "x.mp4", some "A"⟩, ⟨"id2", "x.mp4", some "B"⟩,
                    ⟨"id3", "x.mp4", some "A"⟩])])
    ∧ fileIdsToDelete
        [("x.mp4", [⟨"id1", "x.mp4", some "A"⟩, ⟨"id2", "x.mp4", some "B"⟩,
                    ⟨"id3", "x.mp4", some "A"⟩])] = ["id2", "id3"] :=
  ⟨((c1_first_never_targeted
      [("x.mp4", [⟨"id1", "x.mp4", some "A"⟩, ⟨"id2", "x.mp4", some "B"⟩,
                  ⟨"id3", "x.mp4", some "A"⟩])] (by decide)).2.2.1
      ("x.mp4", [⟨"id1", "x.mp4", some "A"⟩, ⟨"id2", "x.mp4", some "B"⟩,
                 ⟨"id3", "x.mp4", some "A"⟩]) (by decide)
      ⟨"id1", "x.mp4", some "A"⟩ rfl).1,
   by decide⟩

theorem natAbs_eq_toNat_of_pos (N : Int) (hN : 1 ≤ N) : N.natAbs = N.toNat := by
  have h1 : ((N.natAbs : Nat) : Int) = N := Int.natAbs_of_nonneg (by omega)
  have h2 : ((N.toNat : Nat) : Int) = N := Int.toNat_of_nonneg (by omega)
  exact_mod_cast h1.trans h2.symm

theorem jsIndexMatches_of_valid (N k : Int) (hN : 1 ≤ N) (hk0 : 0 ≤ k)
    (i : Nat) :
    jsIndexMatches N k i = decide (i % N.toNat = k.toNat) := by
  unfold jsIndexMatches
  rw [if_neg (by omega : N ≠ 0)]
  rw [natAbs_eq_toNat_of_pos N hN]
  rw [Bool.eq_iff_iff]
  simp only [beq_iff_eq, decide_eq_true_eq]
  omega

/-- C3: after the comma-split, trim and empty-token filter, for every
totalInstances at least 1 and every instanceIndex in range, the partition
of instance k is exactly the elements whose original index is congruent to
k modulo totalInstances, in original order; the partitions of two distinct
instance indices share no indexed element; every indexed element of the
input belongs to the partition of some valid instance index; and each
partition is a sublist of the input (order-stable). -/
theorem c3_partitioner (raw : String) (N k : Int)
    (hN : 1 ≤ N) (hk0 : 0 ≤ k) (hkN : k < N) :
    keyListToProcess k N (parseWorkList raw)
      = ((parseWorkList raw).enum.filter
          (fun p => decide (p.1 % N.toNat = k.toNat))).map Prod.snd
    ∧ (∀ (j₁ j₂ : Int), 0 ≤ j₁ → j₁ < N → 0 ≤ j₂ → j₂ < N → j₁ ≠ j₂ →
        ∀ p, p ∈ keyListEnum j₁ N (parseWorkList raw) →
          p ∉ keyListEnum j₂ N (parseWorkList raw))
    ∧ (∀ p ∈ (parseWorkList raw).enum, ∃ j : Int, 0 ≤ j ∧ j < N
        ∧ p ∈ keyListEnum j N (parseWorkList raw))
    ∧ (keyListToProcess k N (parseWorkList raw)).Sublist (parseWorkList raw) := by
  have hN0 : N ≠ 0 := by omega
  refine ⟨?_, ?_, ?_, ?_⟩
  · unfold keyListToProcess keyListEnum
    congr 1
    exact List.filter_congr fun p _ => jsIndexMatches_of_valid N k hN hk0 p.1
  · intro j₁ j₂ h10 h1N h20 h2N hne p hp1 hp2
    unfold keyListEnum at hp1 hp2
    rw [List.mem_filter] at hp1 hp2
    have e1 := hp1.2
    have e2 := hp2.2
    unfold jsIndexMatches at e1 e2
    rw [if_neg hN0] at e1 e2
    rw [beq_iff_eq] at e1 e2
    exact hne (e1 ▸ e2 ▸ rfl)
  · intro p hp
    refine ⟨((p.1 % N.natAbs : Nat) : Int), by omega, ?_, ?_⟩
    · have h1 : p.1 % N.natAbs < N.natAbs := Nat.mod_lt _ (by positivity)
      rw [natAbs_eq_toNat_of_pos N hN] at h1 ⊢
      omega
    · unfold keyListEnum
      rw [List.mem_filter]
      refine ⟨hp, ?_⟩
      unfold jsIndexMatches
      rw [if_neg hN0]
      exact beq_self_eq_true _
  · unfold keyListToProcess keyListEnum
    have h1 : ((parseWorkList raw).enum.filter
        (fun p => jsIndexMatches N k p.1)).Sublist (parseWorkList raw).enum :=
      List.filter_sublist _
    have h2 := h1.map Prod.snd
    rw [List.enum_map_snd] at h2
    exact h2

theorem c3_partitioner_witness :
    keyListToProcess 0 2 (parseWorkList "a.mov,b.mov,a.mov")
      = ((parseWorkList "a.mov,b.mov,a.mov").enum.filter
          (fun p => decide (p.1 % (2 : Int).toNat = (0 : Int).toNat))).map Prod.snd
    ∧ keyListToProcess 0 2 (parseWorkList "a.mov,b.mov,a.mov") = ["a.mov", "a.mov"]
    ∧ keyListToProcess 1 2 (parseWorkList "a.mov,b.mov,a.mov") = ["b.mov"] :=
  ⟨(c3_partitioner "a.mov,b.mov,a.mov" 2 0 (by decide) (by decide) (by decide)).1,
   by decide, by decide⟩


theorem entryList_addToMap (m : DupMap) (n : String) (r : Record) (x : String) :
    entryList (addToMap m n r) x
      = if x = n then entryList m x ++ [r] else entryList m x := by
  induction m with
  | nil =>
    simp only [addToMap]
    by_cases h : x = n
    · subst h
      simp [entryList]
    · simp [entryList, h, Ne.symm h]
  | cons a rest ih =>
    obtain ⟨k, l⟩ := a
    simp only [addToMap]
    by_cases h1 : k = n
    · rw [if_pos h1]
      subst h1
      by_cases h2 : x = k
      · subst h2
        simp [entryList]
      · simp [entryList, h2, Ne.symm h2]
    · rw [if_neg h1]
      by_cases h2 : x = k
      · subst h2
        have hxn : ¬(x = n) := fun hc => h1 (hc ▸ rfl)
        simp [entryList, hxn]
      · simp [entryList, Ne.symm h2, ih]

theorem scan_entry (folderId : String) :
    ∀ (files : List DriveFile) (st : DupMap × List String) (n : String),
      entryList (files.foldl (scanStep folderId) st).1 n
        = entryList st.1 n
          ++ (files.filter (fun f => f.name == n)).map (mkRecord folderId) := by
  intro files
  induction files with
  | nil =>
    intro st n
    simp
  | cons f fs ih =>
    intro st n
    rw [List.foldl_cons, ih]
    have hstep : (scanStep folderId st f).1
        = addToMap st.1 f.name (mkRecord folderId f) := rfl
    rw [hstep, entryList_addToMap]
    by_cases h : n = f.name
    · rw [if_pos h, List.filter_cons]
      have hb : (f.name == n) = true := by simp [h]
      rw [hb]
      simp
    · rw [if_neg h, List.filter_cons]
      have hb : ¬((f.name == n) = true) := by simp [Ne.symm h]
      rw [if_neg hb]

theorem scan_dups (folderId : String) :
    ∀ (files : List DriveFile) (st : DupMap × List String),
      ((files.foldl (scanStep folderId) st).2 = [] ↔
        st.2 = [] ∧ ∀ n, ¬(1 ≤ files.countP (fun f => f.name == n)
          ∧ (entryList st.1 n).length ≤ 1
          ∧ 2 ≤ (entryList st.1 n).length
              + files.countP (fun f => f.name == n))) := by
  intro files
  induction files with
  | nil =>
    intro st
    simp
  | cons f fs ih =>
    intro st
    rw [List.foldl_cons, ih]
    have hstep1 : (scanStep folderId st f).1
        = addToMap st.1 f.name (mkRecord folderId f) := rfl
    have hstep2 : (scanStep folderId st f).2
        = (if (entryList st.1 f.name).length + 1 = 2
            then st.2 ++ [f.name] else st.2) := rfl
    constructor
    · rintro ⟨h2, hall⟩
      rw [hstep2] at h2
      have hcase : st.2 = [] ∧ (entryList st.1 f.name).length ≠ 1 := by
        by_cases hL : (entryList st.1 f.name).length + 1 = 2
        · rw [if_pos hL] at h2
          exact absurd h2 (by simp)
        · rw [if_neg hL] at h2
          exact ⟨h2, by omega⟩
      refine ⟨hcase.1, ?_⟩
      intro n
      have hn := hall n
      rw [hstep1, entryList_addToMap] at hn
      rw [List.countP_cons]
      by_cases h : n = f.name
      · subst h
        rw [if_pos rfl] at hn
        simp only [List.length_append, List.length_singleton] at hn
        have hL := hcase.2
        simp only [beq_self_eq_true, if_pos]
        omega
      · rw [if_neg h] at hn
        have hb : (f.name == n) = false := by
          simp [Ne.symm h]
        rw [hb]
        simpa using hn
    · rintro ⟨h2, hall⟩
      have hfn := hall f.name
      rw [List.countP_cons] at hfn
      rw [beq_self_eq_true] at hfn
      simp only [if_pos] at hfn
      refine ⟨?_, ?_⟩
      · rw [hstep2]
        have hL : ¬((entryList st.1 f.name).length + 1 = 2) := by omega
        rw [if_neg hL]
        exact h2
      · intro n
        have hn := hall n
        rw [hstep1, entryList_addToMap]
        rw [List.countP_cons] at hn
        by_cases h : n = f.name
        · subst h
          rw [if_pos rfl]
          rw [beq_self_eq_true] at hn
          simp only [if_pos] at hn
          simp only [List.length_append, List.length_singleton]
          omega
        · rw [if_neg h]
          have hb : (f.name == n) = false := by
            simp [Ne.symm h]
          rw [hb] at hn
          simpa using hn

/-- C5 (amended): the scanner returns null exactly when no name occurs at
least twice in the enumerated sequence; when some name does, it returns
the whole fileMap, whose entry for every name — including names with only
a single occurrence — is the list of all that name's records in
enumeration order.  The claim that the returned map contains an entry for
a name only when that name has at least 2 occurrences is false: singleton
entries are returned alongside the duplicate groups. -/
theorem c5_scanner_map (files : List DriveFile) (folderId : String) :
    (scanGoogleDriveForDuplicates files folderId = none ↔
      ∀ n, files.countP (fun f => f.name == n) ≤ 1)
    ∧ (∀ m, scanGoogleDriveForDuplicates files folderId = some m →
        ∀ n, entryList m n
          = (files.filter (fun f => f.name == n)).map (mkRecord folderId)) := by
  constructor
  · unfold scanGoogleDriveForDuplicates
    have hdups := scan_dups folderId files ([], [])
    constructor
    · intro hnone n
      by_cases hlen : 0 < (files.foldl (scanStep folderId) ([], [])).2.length
      · rw [if_pos hlen] at hnone
        exact absurd hnone (by simp)
      · have hnil : (files.foldl (scanStep folderId) ([], [])).2 = [] := by
          cases hl : (files.foldl (scanStep folderId) ([], [])).2 with
          | nil => rfl
          | cons a l => rw [hl] at hlen; exact absurd (by simp) hlen
        have hforall := (hdups.mp hnil).2 n
        simp only [entryList, List.length_nil] at hforall
        omega
    · intro hsmall
      have hnil : (files.foldl (scanStep folderId) ([], [])).2 = [] := by
        rw [hdups]
        refine ⟨rfl, ?_⟩
        intro n
        have := hsmall n
        simp only [entryList, List.length_nil]
        omega
      rw [if_neg (by simp [hnil])]
  · intro m hm n
    unfold scanGoogleDriveForDuplicates at hm
    split at hm
    · injection hm with hm
      rw [← hm]
      have := scan_entry folderId files ([], []) n
      simpa [entryList] using this
    · exact absurd hm (by simp)

theorem c5_scanner_map_witness :
    entryList [("a", [⟨"1", "a", some "root"⟩, ⟨"2", "a", some "root"⟩])] "a"
      = (([⟨"1", "a", none⟩, ⟨"2", "a", none⟩] : List DriveFile).filter
          (fun f => f.name == "a")).map (mkRecord "root") :=
  (c5_scanner_map [⟨"1", "a", none⟩, ⟨"2", "a", none⟩] "root").2
    [("a", [⟨"1", "a", some "root"⟩, ⟨"2", "a", some "root"⟩])] (by decide) "a"

/-- C5 counterexample: scanning one pair of same-named files together with
one uniquely-named file returns a map that still contains a singleton
entry for the unique name, which occurs exactly once — contradicting the
claim that the returned map contains an entry for a name only when that
name has at least 2 occurrences. -/
theorem c5_counterexample :
    scanGoogleDriveForDuplicates
        [⟨"1", "a", none⟩, ⟨"2", "a", none⟩, ⟨"3", "b", none⟩] "root"
      = some [("a", [⟨"1", "a", some "root"⟩, ⟨"2", "a", some "root"⟩]),
              ("b", [⟨"3", "b", some "root"⟩])]
    ∧ (entryList [("a", [⟨"1", "a", some "root"⟩, ⟨"2", "a", some "root"⟩]),
              ("b", [⟨"3", "b", some "root"⟩])] "b").length = 1
    ∧ ([⟨"1", "a", none⟩, ⟨"2", "a", none⟩, ⟨"3", "b", none⟩]
        : List DriveFile).countP (fun f => f.name == "b") = 1 := by
  decide
